import Mathlib

/-!
Verification of the virtual-memory-visualizer simulation core.

This file gives a shallow embedding, in Lean, of the C simulation core
(`addr_translate.c`, `tlb_sim.c`, `paging_sim.c`) and proves properties of
that embedding.  Machine integers are modelled as `Nat` (for the `uint64_t`
fields, with explicit reduction mod `2 ^ 64` where the C code can wrap) and
as `Int` (for the C `int` fields, including the `-1` sentinel of the frame
table).  Arrays become `List`s whose length equals the stored capacity
field of the corresponding C struct, which the C code never changes after
construction.  The C `rand()` source is threaded as an explicit `randVal`
argument; the external pagemap reader of `proc_reader.c` is threaded as an
explicit `Option PageTableEntry` argument (one value per fetch attempt).
-/

set_option autoImplicit false

namespace VMem

/-! ### Constants from vmem_types.h / paging_sim.h / limits.h -/

def PAGE_SHIFT : Nat := 12
def PML4_SHIFT : Nat := 39
def PDPT_SHIFT : Nat := 30
def PD_SHIFT : Nat := 21
def PT_SHIFT : Nat := 12
def PAGE_OFFSET_MASK : Nat := 0xFFF
def PT_INDEX_MASK : Nat := 0x1FF

def TLB_POLICY_LRU : Nat := 0
def TLB_POLICY_FIFO : Nat := 1
def TLB_POLICY_RANDOM : Nat := 2
def TLB_POLICY_CLOCK : Nat := 3

def MAX_PAGING_FRAMES : Nat := 64

def PAGING_POLICY_LRU : Nat := TLB_POLICY_LRU
def PAGING_POLICY_FIFO : Nat := TLB_POLICY_FIFO
def PAGING_POLICY_RANDOM : Nat := TLB_POLICY_RANDOM
def PAGING_POLICY_CLOCK : Nat := TLB_POLICY_CLOCK

def UINT64_MOD : Nat := 2 ^ 64

def INT_MAX : Int := 2147483647

/-! ### Address Decomposer (addr_translate.c) -/

/-- The five out-parameters written by `extract_page_indices`. -/
structure PageIndices where
  pml4_idx : Nat
  pdpt_idx : Nat
  pd_idx : Nat
  pt_idx : Nat
  offset : Nat
deriving Repr, DecidableEq

/-- Embedding of `extract_page_indices` (addr_translate.c, lines 35-57). -/
def extract_page_indices (vaddr : Nat) : PageIndices :=
  { pml4_idx := (vaddr >>> PML4_SHIFT) &&& PT_INDEX_MASK
    pdpt_idx := (vaddr >>> PDPT_SHIFT) &&& PT_INDEX_MASK
    pd_idx := (vaddr >>> PD_SHIFT) &&& PT_INDEX_MASK
    pt_idx := (vaddr >>> PT_SHIFT) &&& PT_INDEX_MASK
    offset := vaddr &&& PAGE_OFFSET_MASK }

/-- Embedding of `construct_physical_address` (addr_translate.c, lines 27-29).
The C shift `pfn << PAGE_SHIFT` is a `uint64_t` shift, hence the reduction
mod `2 ^ 64`. -/
def construct_physical_address (pfn : Nat) (offset : Nat) : Nat :=
  ((pfn <<< PAGE_SHIFT) % UINT64_MOD) ||| (offset &&& PAGE_OFFSET_MASK)

/-- Embedding of `get_vpn` (addr_translate.c, lines 19-21). -/
def get_vpn (vaddr : Nat) : Nat := vaddr >>> PAGE_SHIFT

/-- Embedding of `get_page_offset` (addr_translate.c, lines 23-25). -/
def get_page_offset (vaddr : Nat) : Nat := vaddr &&& PAGE_OFFSET_MASK

/-! ### Translation Orchestrator (addr_translate.c, walk_page_table)

The external collaborator `read_pagemap_entry` performs file I/O and is
modelled as data: the `Option PageTableEntry` outcome of one fetch attempt
(`none` models the `-1` return of a failed read).  The `error_msg` strings
of the C code are modelled by `WalkError`, keeping the data each message
carries (the pid of the failed read, the swap offset of a swapped page). -/

/-- Embedding of the `PageTableEntry` struct of vmem_types.h.  The C `int`
flags only ever hold 0 or 1 and are modelled as `Bool`. -/
structure PageTableEntry where
  vpn : Nat
  pfn : Nat
  present : Bool
  dirty : Bool
  accessed : Bool
  writeable : Bool
  executable : Bool
  user : Bool
  swapped : Bool
  swap_offset : Nat
deriving Repr, DecidableEq

/-- The all-zero `PageTableEntry`, as produced by `memset(result, 0, ...)`. -/
def zeroPTE : PageTableEntry :=
  { vpn := 0, pfn := 0, present := false, dirty := false, accessed := false
    writeable := false, executable := false, user := false, swapped := false
    swap_offset := 0 }

/-- The `error_msg` buffer of `PageWalkResult`, abstracted to the distinct
messages `walk_page_table` writes, each with the data it formats in. -/
inductive WalkError where
  | noMessage : WalkError
  | readFailure : Int → WalkError
  | swappedOut : Nat → WalkError
  | notPresent : WalkError
deriving Repr, DecidableEq

/-- Embedding of the `PageWalkResult` struct of vmem_types.h. -/
structure PageWalkResult where
  virtual_addr : Nat
  pml4_index : Nat
  pdpt_index : Nat
  pd_index : Nat
  pt_index : Nat
  page_offset : Nat
  physical_addr : Nat
  pte : PageTableEntry
  success : Bool
  error_msg : WalkError
deriving Repr, DecidableEq

/-- Embedding of `walk_page_table` (addr_translate.c, lines 63-102).
`readResult` is the outcome of the single `read_pagemap_entry` call; the
first component of the result is the C return value (0 or -1). -/
def walk_page_table (readResult : Option PageTableEntry) (pid : Int)
    (vaddr : Nat) : Int × PageWalkResult :=
  let idx := extract_page_indices vaddr
  let base : PageWalkResult :=
    { virtual_addr := vaddr
      pml4_index := idx.pml4_idx
      pdpt_index := idx.pdpt_idx
      pd_index := idx.pd_idx
      pt_index := idx.pt_idx
      page_offset := idx.offset
      physical_addr := 0
      pte := zeroPTE
      success := false
      error_msg := WalkError.noMessage }
  match readResult with
  | none => (-1, { base with success := false, error_msg := WalkError.readFailure pid })
  | some pte =>
    let base := { base with pte := pte }
    if !pte.present then
      if pte.swapped then
        (-1, { base with success := false,
                         error_msg := WalkError.swappedOut pte.swap_offset })
      else
        (-1, { base with success := false, error_msg := WalkError.notPresent })
    else
      (0, { base with physical_addr := construct_physical_address pte.pfn idx.offset
                      success := true })

/-- One call of `walk_page_table` against a stream of fetch outcomes: the C
body contains exactly one `read_pagemap_entry` call, so only the first
element of the stream is ever consumed. -/
def walk_page_table_stream (fetch : Nat → Option PageTableEntry) (pid : Int)
    (vaddr : Nat) : Int × PageWalkResult :=
  walk_page_table (fetch 0) pid vaddr

/-! ### Associative Cache Engine / TLB model (tlb_sim.c)

The `entries` array of the C `TLB` struct becomes a list; the stored `size`
field always equals the length of the allocated array, so `size` is
modelled as the list length (`TLB.size` below).  The `uint64_t` counters
wrap mod `2 ^ 64` on increment, which the embedding keeps explicit.  The
`rand()` call of the RANDOM policy is threaded as the `randVal` argument;
the other policies ignore it, exactly as the C code never calls `rand()`
outside its RANDOM branch. -/

/-- Embedding of the `TLBEntry` struct of vmem_types.h. -/
structure TLBEntry where
  vpn : Nat
  pfn : Nat
  valid : Bool
  dirty : Bool
  accessed : Bool
  last_access : Nat
deriving Repr, DecidableEq

/-- Embedding of the `TLB` struct of vmem_types.h (minus the `clock_hand`
field, which no code path of tlb_sim.c ever reads or writes). -/
structure TLB where
  entries : List TLBEntry
  replacement_policy : Nat
  hits : Nat
  misses : Nat
  access_counter : Nat
deriving Repr, DecidableEq

/-- The stored `size` field of the C struct, always equal to the length of
the allocated `entries` array. -/
def TLB.size (t : TLB) : Nat := t.entries.length

/-- An all-zero entry, as produced by `calloc` in `tlb_init`. -/
def zeroTLBEntry : TLBEntry :=
  { vpn := 0, pfn := 0, valid := false, dirty := false, accessed := false
    last_access := 0 }

/-- Embedding of `tlb_init` (tlb_sim.c, lines 19-51).  `size` is a C `int`,
hence `Int`; `none` models the `NULL` return of the validation branch. -/
def tlb_init (size : Int) (replacement_policy : Nat) : Option TLB :=
  if size ≤ 0 ∨ size > 1024 then
    none
  else
    some { entries := List.replicate size.toNat zeroTLBEntry
           replacement_policy := replacement_policy
           hits := 0
           misses := 0
           access_counter := 0 }

/-- Embedding of `tlb_flush` (tlb_sim.c, lines 62-71): clears `valid`,
`vpn`, `pfn` and `last_access` of every slot (and nothing else). -/
def tlb_flush (t : TLB) : TLB :=
  { t with entries := t.entries.map fun e =>
      { e with valid := false, vpn := 0, pfn := 0, last_access := 0 } }

/-- Embedding of `tlb_reset_stats` (tlb_sim.c, lines 73-79). -/
def tlb_reset_stats (t : TLB) : TLB :=
  { t with hits := 0, misses := 0, access_counter := 0 }

/-- The scan loop of `tlb_lookup`: first valid entry whose `vpn` matches is
stamped (`accessed`, `last_access`) and its `pfn` returned. -/
def lookupAux (vpn stamp : Nat) : List TLBEntry → Option (Nat × List TLBEntry)
  | [] => none
  | e :: rest =>
    if e.valid && e.vpn == vpn then
      some (e.pfn, { e with accessed := true, last_access := stamp } :: rest)
    else
      match lookupAux vpn stamp rest with
      | none => none
      | some (p, rest1) => some (p, e :: rest1)

/-- Embedding of `tlb_lookup` (tlb_sim.c, lines 85-102).  Returns the hit
flag, the `*pfn` out-parameter (0 when the C code leaves it unwritten) and
the updated TLB. -/
def tlb_lookup (t : TLB) (vpn : Nat) : Bool × Nat × TLB :=
  match lookupAux vpn t.access_counter t.entries with
  | some (p, es) =>
    (true, p, { t with entries := es
                       access_counter := (t.access_counter + 1) % UINT64_MOD
                       hits := t.hits + 1 })
  | none => (false, 0, { t with misses := t.misses + 1 })

/-- The scan of `find_victim` shared by the LRU and FIFO cases: index of the
smallest `last_access`, strictly-smaller updates, starting from slot 0. -/
def minStampAux (i : Nat) (minA : Nat) (victim : Nat) : List TLBEntry → Nat
  | [] => victim
  | e :: rest =>
    if e.last_access < minA then minStampAux (i + 1) e.last_access i rest
    else minStampAux (i + 1) minA victim rest

/-- Index of the entry with the smallest `last_access` stamp (ties broken by
lowest index), as computed by the LRU and FIFO cases of `find_victim`. -/
def minStampIdx : List TLBEntry → Nat
  | [] => 0
  | e :: rest => minStampAux 1 e.last_access 0 rest

/-- Embedding of `find_victim` (tlb_sim.c, lines 107-157). -/
def find_victim (t : TLB) (randVal : Nat) : Nat :=
  match t.entries.findIdx? (fun e => !e.valid) with
  | some i => i
  | none =>
    if t.replacement_policy = TLB_POLICY_LRU then minStampIdx t.entries
    else if t.replacement_policy = TLB_POLICY_FIFO then minStampIdx t.entries
    else if t.replacement_policy = TLB_POLICY_RANDOM then randVal % t.size
    else 0

/-- The update loop of `tlb_insert`: first valid entry whose `vpn` matches
is overwritten in place (`pfn`, `dirty`, `accessed`, `last_access`). -/
def insertAux (vpn pfn : Nat) (dirty : Bool) (stamp : Nat) :
    List TLBEntry → Option (List TLBEntry)
  | [] => none
  | e :: rest =>
    if e.valid && e.vpn == vpn then
      some ({ e with pfn := pfn, dirty := dirty, accessed := true
                     last_access := stamp } :: rest)
    else
      match insertAux vpn pfn dirty stamp rest with
      | none => none
      | some rest1 => some (e :: rest1)

/-- Embedding of `tlb_insert` (tlb_sim.c, lines 159-182). -/
def tlb_insert (t : TLB) (vpn pfn : Nat) (dirty : Bool) (randVal : Nat) : TLB :=
  match insertAux vpn pfn dirty t.access_counter t.entries with
  | some es =>
    { t with entries := es
             access_counter := (t.access_counter + 1) % UINT64_MOD }
  | none =>
    let slot := find_victim t randVal
    { t with entries := t.entries.set slot
               { vpn := vpn, pfn := pfn, valid := true, dirty := dirty
                 accessed := true, last_access := t.access_counter }
             access_counter := (t.access_counter + 1) % UINT64_MOD }

/-- The scan loop of `tlb_invalidate`: clears the `valid` flag (only) of the
first valid entry whose `vpn` matches. -/
def invalidateAux (vpn : Nat) : List TLBEntry → Option (List TLBEntry)
  | [] => none
  | e :: rest =>
    if e.valid && e.vpn == vpn then
      some ({ e with valid := false } :: rest)
    else
      match invalidateAux vpn rest with
      | none => none
      | some rest1 => some (e :: rest1)

/-- Embedding of `tlb_invalidate` (tlb_sim.c, lines 184-194). -/
def tlb_invalidate (t : TLB) (vpn : Nat) : Bool × TLB :=
  match invalidateAux vpn t.entries with
  | some es => (true, { t with entries := es })
  | none => (false, t)

/-- Embedding of `tlb_access` (tlb_sim.c, lines 196-207): lookup, and on a
miss insert the supplied mapping. -/
def tlb_access (t : TLB) (vpn pfn : Nat) (dirty : Bool) (randVal : Nat) :
    Bool × TLB :=
  match tlb_lookup t vpn with
  | (true, _, t1) => (true, t1)
  | (false, _, t1) => (false, tlb_insert t1 vpn pfn dirty randVal)

/-- Embedding of `tlb_get_hit_rate` (tlb_sim.c, lines 221-228).  The local
`uint64_t total = tlb->hits + tlb->misses` wraps mod `2 ^ 64`, and the
wrapped value feeds both the zero guard and the division.  The C `double`
arithmetic is modelled exactly over `ℚ` (the quotient `hits / total` and
the factor 100 are the same real numbers the C code rounds). -/
def tlb_get_hit_rate (t : TLB) : ℚ :=
  let total : Nat := (t.hits + t.misses) % UINT64_MOD
  if total = 0 then 0
  else ((t.hits : ℚ) / (total : ℚ)) * 100

/-! ### Frame Table Engine / demand-paging model (paging_sim.c)

The `frames[MAX_PAGING_FRAMES]` array of the C struct becomes a list whose
length is the stored `num_frames` (only the first `num_frames` cells are
ever touched by the C code).  All frame fields are C `int`s, modelled as
`Int` (the `-1` empty sentinel of `vpn` needs the sign); the counters stay
far below `INT_MAX` in every property proved here.  The unbounded
`while (1)` clock scan is embedded with explicit fuel; the termination
theorem below shows fuel `2 * num_frames` (two full sweeps) is never
exhausted, which is exactly the bound the claim states. -/

/-- Embedding of the `PageFrame` struct of paging_sim.h. -/
structure PageFrame where
  vpn : Int
  loaded_at : Int
  last_access : Int
  reference_bit : Bool
deriving Repr, DecidableEq

/-- Embedding of the `PagingSimulator` struct of paging_sim.h (minus the
CLI-only `initialized` flag, which the engine functions never read). -/
structure PagingSimulator where
  frames : List PageFrame
  policy : Nat
  page_faults : Int
  page_hits : Int
  access_counter : Int
  clock_hand : Nat
deriving Repr, DecidableEq

/-- The stored `num_frames` field, always equal to the length of the active
prefix of the C `frames` array, i.e. of the `frames` list here. -/
def PagingSimulator.num_frames (s : PagingSimulator) : Nat := s.frames.length

/-- Embedding of `paging_init` (paging_sim.c, lines 28-46): the two
sequential clamping tests, then all counters zeroed and every frame reset
to the empty sentinel. -/
def paging_init (num_frames : Int) (policy : Nat) : PagingSimulator :=
  let nf1 : Int := if num_frames < 1 then 4 else num_frames
  let nf2 : Int := if nf1 > (MAX_PAGING_FRAMES : Int) then (MAX_PAGING_FRAMES : Int) else nf1
  { frames := List.replicate nf2.toNat
      { vpn := -1, loaded_at := 0, last_access := 0, reference_bit := false }
    policy := policy
    page_faults := 0
    page_hits := 0
    access_counter := 0
    clock_hand := 0 }

/-- The LRU / FIFO victim scan of `paging_access`: index of the smallest
key (strictly-smaller updates), starting from `min = INT_MAX` and
`target = -1` exactly as the C code does. -/
def pagingMinAux (key : PageFrame → Int) (i : Nat) (minV : Int) (victim : Int) :
    List PageFrame → Int
  | [] => victim
  | f :: rest =>
    if key f < minV then pagingMinAux key (i + 1) (key f) (i : Int) rest
    else pagingMinAux key (i + 1) minV victim rest

/-- Victim index for the LRU (`key = last_access`) and FIFO
(`key = loaded_at`) branches of `paging_access`. -/
def pagingMinIdx (key : PageFrame → Int) (frames : List PageFrame) : Int :=
  pagingMinAux key 0 INT_MAX (-1) frames

/-- The `while (1)` clock scan of `paging_access` (lines 102-111), with
explicit fuel: a frame with a clear reference bit at the hand is selected
and the hand advanced past it; otherwise the bit is cleared and the hand
advanced.  Returns the selected frame, the updated frames and the updated
hand; `none` means the fuel ran out before a victim was found. -/
def clockScan (fuel : Nat) (frames : List PageFrame) (hand : Nat) :
    Option (Nat × List PageFrame × Nat) :=
  match fuel with
  | 0 => none
  | fuel + 1 =>
    match frames[hand]? with
    | none => none
    | some f =>
      if f.reference_bit then
        clockScan fuel (frames.set hand { f with reference_bit := false })
          ((hand + 1) % frames.length)
      else
        some (hand, frames, (hand + 1) % frames.length)

/-- Embedding of `paging_access` (paging_sim.c, lines 48-123).  The result
is the C return value (`true` for hit, `false` for fault) together with the
updated simulator; `none` arises only when the clock fuel of two full
sweeps is exhausted, or when the C code would index `frames` out of range
(the LRU/FIFO scan leaving `target = -1`, possible only if every
`last_access` equals `INT_MAX`). -/
def paging_access (sim : PagingSimulator) (vpn : Int) (randVal : Nat) :
    Option (Bool × PagingSimulator) :=
  match sim.frames.findIdx? (fun f => f.vpn == vpn) with
  | some i =>
    match sim.frames[i]? with
    | none => none
    | some f =>
      some (true,
        { sim with
            page_hits := sim.page_hits + 1
            frames := sim.frames.set i
              { f with last_access := sim.access_counter, reference_bit := true }
            access_counter := sim.access_counter + 1 })
  | none =>
    let sim := { sim with page_faults := sim.page_faults + 1 }
    let installed : Nat → List PageFrame → Nat → Option (Bool × PagingSimulator) :=
      fun target frames hand =>
        match frames[target]? with
        | none => none
        | some _ =>
          some (false,
            { sim with
                frames := frames.set target
                  { vpn := vpn, loaded_at := sim.access_counter
                    last_access := sim.access_counter, reference_bit := true }
                clock_hand := hand
                access_counter := sim.access_counter + 1 })
    match sim.frames.findIdx? (fun f => f.vpn == -1) with
    | some i => installed i sim.frames sim.clock_hand
    | none =>
      if sim.policy = PAGING_POLICY_LRU then
        let t := pagingMinIdx (fun f => f.last_access) sim.frames
        if t < 0 then none else installed t.toNat sim.frames sim.clock_hand
      else if sim.policy = PAGING_POLICY_FIFO then
        let t := pagingMinIdx (fun f => f.loaded_at) sim.frames
        if t < 0 then none else installed t.toNat sim.frames sim.clock_hand
      else if sim.policy = PAGING_POLICY_RANDOM then
        installed (randVal % sim.num_frames) sim.frames sim.clock_hand
      else if sim.policy = PAGING_POLICY_CLOCK then
        match clockScan (2 * sim.num_frames) sim.frames sim.clock_hand with
        | none => none
        | some (target, frames1, hand1) => installed target frames1 hand1
      else none

/-- Embedding of `paging_flush` (paging_sim.c, lines 162-169): empties every
frame and resets all three counters in the same call. -/
def paging_flush (sim : PagingSimulator) : PagingSimulator :=
  { sim with
      frames := sim.frames.map fun f => { f with vpn := -1 }
      page_hits := 0
      page_faults := 0
      access_counter := 0 }

/-! ### Reachable TLB states and the key-uniqueness invariant -/

/-- No two distinct valid slots hold the same virtual page number. -/
def EntriesOK (es : List TLBEntry) : Prop :=
  ∀ i, ∀ hi : i < es.length, ∀ j, ∀ hj : j < es.length, i ≠ j →
    (es.get ⟨i, hi⟩).valid = true → (es.get ⟨j, hj⟩).valid = true →
    (es.get ⟨i, hi⟩).vpn ≠ (es.get ⟨j, hj⟩).vpn

instance (es : List TLBEntry) : Decidable (EntriesOK es) := by
  unfold EntriesOK; infer_instance

/-- One entry refines another for the uniqueness invariant: same key, and
valid only if the other is valid.  Every TLB operation except a fresh
install relates its output entries to its input entries this way. -/
def entry_keyle (a b : TLBEntry) : Prop :=
  a.vpn = b.vpn ∧ (a.valid = true → b.valid = true)

/-- TLB states reachable from a successful `tlb_init` by any sequence of
the public mutating operations of tlb_sim.c, for every choice of inputs and
of the `rand()` values consumed by the RANDOM policy. -/
inductive ReachableTLB : TLB → Prop where
  | init : ∀ size policy t, tlb_init size policy = some t → ReachableTLB t
  | lookup : ∀ t vpn, ReachableTLB t → ReachableTLB (tlb_lookup t vpn).2.2
  | insert : ∀ t vpn pfn dirty randVal, ReachableTLB t →
      ReachableTLB (tlb_insert t vpn pfn dirty randVal)
  | access : ∀ t vpn pfn dirty randVal, ReachableTLB t →
      ReachableTLB (tlb_access t vpn pfn dirty randVal).2
  | invalidate : ∀ t vpn, ReachableTLB t → ReachableTLB (tlb_invalidate t vpn).2
  | flush : ∀ t, ReachableTLB t → ReachableTLB (tlb_flush t)
  | reset : ∀ t, ReachableTLB t → ReachableTLB (tlb_reset_stats t)

/-! ### Helper lemmas -/

/-- A left shift or-ed with a value that fits below the shift amount is
plain addition. -/
theorem shiftLeft_lor_eq_add {b k : Nat} (a : Nat) (hb : b < 2 ^ k) :
    (a <<< k) ||| b = a * 2 ^ k + b := by
  apply Nat.eq_of_testBit_eq
  intro j
  rw [Nat.testBit_or, Nat.testBit_shiftLeft, Nat.mul_comm,
    Nat.testBit_mul_pow_two_add a hb j]
  by_cases hj : j < k
  · simp [hj, Nat.not_le.mpr hj]
  · have hk : k ≤ j := Nat.not_lt.mp hj
    have hbj : Nat.testBit b j = false :=
      Nat.testBit_lt_two_pow (Nat.lt_of_lt_of_le hb (Nat.pow_le_pow_right (by omega) hk))
    simp [hj, hk, hbj]

/-- Setting a cell to the value it already holds leaves a list unchanged. -/
theorem set_of_getElem? {α : Type} {l : List α} {i : Nat} {a : α}
    (h : l[i]? = some a) : l.set i a = l := by
  apply List.ext_getElem?
  intro n
  by_cases hn : i = n
  · subst hn
    have : i < l.length := by
      by_contra hlt
      rw [List.getElem?_eq_none (by omega)] at h
      cases h
    rw [List.getElem?_set_self this, h]
  · rw [List.getElem?_set_ne hn]

/-- The clock scan succeeds as soon as the fuel reaches past the first
frame, at cyclic distance `d` from the hand, whose reference bit is clear:
every step either selects the current frame or clears its bit and moves
one frame forward, so the clear frame is reached after at most `d` steps. -/
theorem clockScan_of_clear (d : Nat) :
    ∀ (fuel : Nat) (frames : List PageFrame) (hand : Nat),
      hand < frames.length → d < frames.length → d < fuel →
      (∀ f, frames[(hand + d) % frames.length]? = some f →
        f.reference_bit = false) →
      ∃ t fr h1, clockScan fuel frames hand = some (t, fr, h1) ∧
        t < frames.length ∧ fr.length = frames.length := by
  induction d with
  | zero =>
    intro fuel frames hand hh _ hfuel hclear
    obtain ⟨fu, rfl⟩ : ∃ fu, fuel = fu + 1 := ⟨fuel - 1, by omega⟩
    obtain ⟨f0, hf0⟩ : ∃ f0, frames[hand]? = some f0 :=
      ⟨frames.get ⟨hand, hh⟩, List.getElem?_eq_getElem hh⟩
    have hbit : f0.reference_bit = false := by
      apply hclear
      rwa [Nat.add_zero, Nat.mod_eq_of_lt hh]
    refine ⟨hand, frames, (hand + 1) % frames.length, ?_, hh, rfl⟩
    simp only [clockScan]
    rw [hf0]
    simp [hbit]
  | succ d ih =>
    intro fuel frames hand hh hd hfuel hclear
    obtain ⟨fu, rfl⟩ : ∃ fu, fuel = fu + 1 := ⟨fuel - 1, by omega⟩
    obtain ⟨f0, hf0⟩ : ∃ f0, frames[hand]? = some f0 :=
      ⟨frames.get ⟨hand, hh⟩, List.getElem?_eq_getElem hh⟩
    have hlen0 : 0 < frames.length := by omega
    cases hbit : f0.reference_bit with
    | false =>
      refine ⟨hand, frames, (hand + 1) % frames.length, ?_, hh, rfl⟩
      simp only [clockScan]
      rw [hf0]
      simp [hbit]
    | true =>
      have hstep : clockScan (fu + 1) frames hand =
          clockScan fu (frames.set hand { f0 with reference_bit := false })
            ((hand + 1) % frames.length) := by
        simp only [clockScan]
        rw [hf0]
        simp [hbit]
      have hlen1 : (frames.set hand { f0 with reference_bit := false }).length =
          frames.length := List.length_set ..
      have hidx : ((hand + 1) % frames.length + d) % frames.length =
          (hand + (d + 1)) % frames.length := by
        rw [Nat.mod_add_mod]
        congr 1
        omega
      obtain ⟨t, fr, h1, heq, ht, hfr⟩ :=
        ih fu (frames.set hand { f0 with reference_bit := false })
          ((hand + 1) % frames.length)
          (by rw [hlen1]; exact Nat.mod_lt _ hlen0)
          (by omega)
          (by omega)
          (by
            intro f hf
            rw [hlen1, hidx] at hf
            by_cases hcase : hand = (hand + (d + 1)) % frames.length
            · rw [← hcase, List.getElem?_set_self (by omega)] at hf
              injection hf with hf
              rw [← hf]
            · rw [List.getElem?_set_ne hcase] at hf
              exact hclear f hf)
      refine ⟨t, fr, h1, ?_, by omega, by omega⟩
      rw [hstep]
      exact heq

theorem entry_keyle_refl (es : List TLBEntry) : List.Forall₂ entry_keyle es es :=
  List.forall₂_same.mpr fun _ _ => ⟨rfl, id⟩

theorem EntriesOK_of_forall₂ {es1 es : List TLBEntry}
    (h : List.Forall₂ entry_keyle es1 es) (hok : EntriesOK es) : EntriesOK es1 := by
  obtain ⟨hlen, hget⟩ := List.forall₂_iff_get.mp h
  intro i hi j hj hne hv1 hv2
  obtain ⟨hvpn_i, hval_i⟩ := hget i hi (by omega)
  obtain ⟨hvpn_j, hval_j⟩ := hget j hj (by omega)
  rw [hvpn_i, hvpn_j]
  exact hok i (by omega) j (by omega) hne (hval_i hv1) (hval_j hv2)

theorem lookupAux_forall₂ {vpn st : Nat} :
    ∀ {es : List TLBEntry} {p : Nat} {es1 : List TLBEntry},
      lookupAux vpn st es = some (p, es1) → List.Forall₂ entry_keyle es1 es := by
  intro es
  induction es with
  | nil => intro p es1 h; simp [lookupAux] at h
  | cons e rest ih =>
    intro p es1 h
    simp only [lookupAux] at h
    by_cases hc : (e.valid && e.vpn == vpn) = true
    · rw [if_pos hc] at h
      simp only [Option.some.injEq, Prod.mk.injEq] at h
      obtain ⟨-, h2⟩ := h
      subst h2
      exact List.Forall₂.cons ⟨rfl, fun hv => hv⟩ (entry_keyle_refl rest)
    · rw [if_neg hc] at h
      cases hrec : lookupAux vpn st rest with
      | none => rw [hrec] at h; cases h
      | some pr =>
        obtain ⟨q, rest1⟩ := pr
        rw [hrec] at h
        simp only [Option.some.injEq, Prod.mk.injEq] at h
        obtain ⟨-, h2⟩ := h
        subst h2
        exact List.Forall₂.cons ⟨rfl, fun hv => hv⟩ (ih hrec)

theorem insertAux_forall₂ {vpn pfn : Nat} {d : Bool} {st : Nat} :
    ∀ {es : List TLBEntry} {es1 : List TLBEntry},
      insertAux vpn pfn d st es = some es1 → List.Forall₂ entry_keyle es1 es := by
  intro es
  induction es with
  | nil => intro es1 h; simp [insertAux] at h
  | cons e rest ih =>
    intro es1 h
    simp only [insertAux] at h
    by_cases hc : (e.valid && e.vpn == vpn) = true
    · rw [if_pos hc] at h
      simp only [Option.some.injEq] at h
      subst h
      exact List.Forall₂.cons ⟨rfl, fun hv => hv⟩ (entry_keyle_refl rest)
    · rw [if_neg hc] at h
      cases hrec : insertAux vpn pfn d st rest with
      | none => rw [hrec] at h; cases h
      | some rest1 =>
        rw [hrec] at h
        simp only [Option.some.injEq] at h
        subst h
        exact List.Forall₂.cons ⟨rfl, fun hv => hv⟩ (ih hrec)

theorem insertAux_none {vpn pfn : Nat} {d : Bool} {st : Nat} :
    ∀ {es : List TLBEntry}, insertAux vpn pfn d st es = none →
      ∀ e ∈ es, e.valid = true → e.vpn ≠ vpn := by
  intro es
  induction es with
  | nil => intro _ e he; cases he
  | cons e rest ih =>
    intro h f hf hv
    simp only [insertAux] at h
    by_cases hc : (e.valid && e.vpn == vpn) = true
    · rw [if_pos hc] at h; cases h
    · rw [if_neg hc] at h
      cases hrec : insertAux vpn pfn d st rest with
      | some rest1 => rw [hrec] at h; cases h
      | none =>
        rcases List.mem_cons.mp hf with hfe | hfr
        · subst hfe
          intro hvpn
          apply hc
          simp [hv, hvpn]
        · exact ih hrec f hfr hv

theorem invalidateAux_forall₂ {vpn : Nat} :
    ∀ {es : List TLBEntry} {es1 : List TLBEntry},
      invalidateAux vpn es = some es1 → List.Forall₂ entry_keyle es1 es := by
  intro es
  induction es with
  | nil => intro es1 h; simp [invalidateAux] at h
  | cons e rest ih =>
    intro es1 h
    simp only [invalidateAux] at h
    by_cases hc : (e.valid && e.vpn == vpn) = true
    · rw [if_pos hc] at h
      simp only [Option.some.injEq] at h
      subst h
      exact List.Forall₂.cons ⟨rfl, by simp⟩ (entry_keyle_refl rest)
    · rw [if_neg hc] at h
      cases hrec : invalidateAux vpn rest with
      | none => rw [hrec] at h; cases h
      | some rest1 =>
        rw [hrec] at h
        simp only [Option.some.injEq] at h
        subst h
        exact List.Forall₂.cons ⟨rfl, fun hv => hv⟩ (ih hrec)

theorem EntriesOK_set_fresh {es : List TLBEntry} {slot vpn pfn : Nat}
    {d : Bool} {st : Nat} (hok : EntriesOK es)
    (hfresh : ∀ e ∈ es, e.valid = true → e.vpn ≠ vpn) :
    EntriesOK (es.set slot
      { vpn := vpn, pfn := pfn, valid := true, dirty := d, accessed := true
        last_access := st }) := by
  intro i hi j hj hne hv1 hv2
  simp only [List.get_eq_getElem] at hv1 hv2 ⊢
  have hi1 : i < es.length := by simpa using hi
  have hj1 : j < es.length := by simpa using hj
  by_cases his : slot = i
  · subst his
    have hjs : slot ≠ j := hne
    rw [List.getElem_set_self hi] at hv1 ⊢
    rw [List.getElem_set_ne hjs] at hv2 ⊢
    exact fun hcontra =>
      hfresh (es.get ⟨j, hj1⟩) (List.get_mem es j hj1) hv2 hcontra.symm
  · by_cases hjs : slot = j
    · subst hjs
      rw [List.getElem_set_ne his] at hv1 ⊢
      rw [List.getElem_set_self hj] at hv2 ⊢
      exact hfresh (es.get ⟨i, hi1⟩) (List.get_mem es i hi1) hv1
    · rw [List.getElem_set_ne his] at hv1 ⊢
      rw [List.getElem_set_ne hjs] at hv2 ⊢
      have := hok i hi1 j hj1 hne
      simp only [List.get_eq_getElem] at this
      exact this hv1 hv2

theorem tlb_lookup_entriesOK (t : TLB) (vpn : Nat) (hok : EntriesOK t.entries) :
    EntriesOK (tlb_lookup t vpn).2.2.entries := by
  cases h : lookupAux vpn t.access_counter t.entries with
  | none => simp only [tlb_lookup, h]; exact hok
  | some pr =>
    obtain ⟨p, es1⟩ := pr
    simp only [tlb_lookup, h]
    exact EntriesOK_of_forall₂ (lookupAux_forall₂ h) hok

theorem tlb_insert_entriesOK (t : TLB) (vpn pfn : Nat) (d : Bool) (r : Nat)
    (hok : EntriesOK t.entries) : EntriesOK (tlb_insert t vpn pfn d r).entries := by
  cases h : insertAux vpn pfn d t.access_counter t.entries with
  | some es1 =>
    simp only [tlb_insert, h]
    exact EntriesOK_of_forall₂ (insertAux_forall₂ h) hok
  | none =>
    simp only [tlb_insert, h]
    exact EntriesOK_set_fresh hok (insertAux_none h)

theorem tlb_init_entriesOK {size : Int} {policy : Nat} {t : TLB}
    (h : tlb_init size policy = some t) : EntriesOK t.entries := by
  rw [tlb_init] at h
  split at h
  · cases h
  · injection h with h
    subst h
    intro i hi j hj hne hv1 _
    exfalso
    simp only [List.get_eq_getElem, List.getElem_replicate] at hv1
    cases hv1

/-! ### Claim theorems -/

/-- C2: for every virtual address, the five fields produced by
`extract_page_indices` recombine through
`(l1 <<< 39) ||| (l2 <<< 30) ||| (l3 <<< 21) ||| (l4 <<< 12) ||| offset`
to the low 48 bits of the input, each index is at most 511 and the offset
is at most 4095. -/
theorem c2_decompose_roundtrip (v : Nat) :
    (((extract_page_indices v).pml4_idx <<< 39) |||
      ((extract_page_indices v).pdpt_idx <<< 30) |||
      ((extract_page_indices v).pd_idx <<< 21) |||
      ((extract_page_indices v).pt_idx <<< 12) |||
      (extract_page_indices v).offset) = v &&& 0xFFFFFFFFFFFF ∧
    (extract_page_indices v).pml4_idx ≤ 511 ∧
    (extract_page_indices v).pdpt_idx ≤ 511 ∧
    (extract_page_indices v).pd_idx ≤ 511 ∧
    (extract_page_indices v).pt_idx ≤ 511 ∧
    (extract_page_indices v).offset ≤ 4095 := by
  have m9 : (PT_INDEX_MASK : Nat) = 2 ^ 9 - 1 := by norm_num [PT_INDEX_MASK]
  have m12 : (PAGE_OFFSET_MASK : Nat) = 2 ^ 12 - 1 := by norm_num [PAGE_OFFSET_MASK]
  have m48 : (0xFFFFFFFFFFFF : Nat) = 2 ^ 48 - 1 := by norm_num
  simp only [extract_page_indices, PML4_SHIFT, PDPT_SHIFT, PD_SHIFT, PT_SHIFT,
    m9, m12, m48, Nat.and_pow_two_sub_one_eq_mod, Nat.shiftRight_eq_div_pow]
  refine ⟨?_, ?_, ?_, ?_, ?_, ?_⟩
  · rw [Nat.lor_assoc, Nat.lor_assoc, Nat.lor_assoc]
    rw [shiftLeft_lor_eq_add (v / 2 ^ 12 % 2 ^ 9) (by omega : v % 2 ^ 12 < 2 ^ 12)]
    rw [shiftLeft_lor_eq_add (v / 2 ^ 21 % 2 ^ 9) (by
      have h1 : v / 2 ^ 12 % 2 ^ 9 < 2 ^ 9 := Nat.mod_lt _ (by norm_num)
      have h2 : v % 2 ^ 12 < 2 ^ 12 := Nat.mod_lt _ (by norm_num)
      omega)]
    rw [shiftLeft_lor_eq_add (v / 2 ^ 30 % 2 ^ 9) (by
      have h1 : v / 2 ^ 21 % 2 ^ 9 < 2 ^ 9 := Nat.mod_lt _ (by norm_num)
      have h2 : v / 2 ^ 12 % 2 ^ 9 < 2 ^ 9 := Nat.mod_lt _ (by norm_num)
      have h3 : v % 2 ^ 12 < 2 ^ 12 := Nat.mod_lt _ (by norm_num)
      omega)]
    rw [shiftLeft_lor_eq_add (v / 2 ^ 39 % 2 ^ 9) (by
      have h1 : v / 2 ^ 30 % 2 ^ 9 < 2 ^ 9 := Nat.mod_lt _ (by norm_num)
      have h2 : v / 2 ^ 21 % 2 ^ 9 < 2 ^ 9 := Nat.mod_lt _ (by norm_num)
      have h3 : v / 2 ^ 12 % 2 ^ 9 < 2 ^ 9 := Nat.mod_lt _ (by norm_num)
      have h4 : v % 2 ^ 12 < 2 ^ 12 := Nat.mod_lt _ (by norm_num)
      omega)]
    omega
  all_goals
    have := Nat.mod_lt (v / 2 ^ 39) (show 0 < 2 ^ 9 by norm_num)
    have := Nat.mod_lt (v / 2 ^ 30) (show 0 < 2 ^ 9 by norm_num)
    have := Nat.mod_lt (v / 2 ^ 21) (show 0 < 2 ^ 9 by norm_num)
    have := Nat.mod_lt (v / 2 ^ 12) (show 0 < 2 ^ 9 by norm_num)
    have := Nat.mod_lt v (show 0 < 2 ^ 12 by norm_num)
    omega

/-- C7: `tlb_init` rejects a capacity that is not in [1, 1024] (returning
no object at all), and for every capacity in [1, 1024] it returns a TLB of
exactly that size, all of whose entries are invalid, with zero hit, miss
and access counters. -/
theorem c7_tlb_init_validation (size : Int) (policy : Nat) :
    (size ≤ 0 ∨ size > 1024 → tlb_init size policy = none) ∧
    (1 ≤ size → size ≤ 1024 →
      ∃ t, tlb_init size policy = some t ∧
        (t.size : Int) = size ∧
        (∀ e ∈ t.entries, e.valid = false) ∧
        t.hits = 0 ∧ t.misses = 0 ∧ t.access_counter = 0) := by
  constructor
  · intro h
    simp [tlb_init, h]
  · intro h1 h2
    have hcond : ¬(size ≤ 0 ∨ size > 1024) := by omega
    refine ⟨_, by rw [tlb_init, if_neg hcond], ?_, ?_, rfl, rfl, rfl⟩
    · simp only [TLB.size, List.length_replicate]
      omega
    · intro e he
      rw [List.eq_of_mem_replicate he]
      rfl

/-- Witness for C7 at capacity 4. -/
theorem c7_tlb_init_validation_witness :
    ∃ t, tlb_init 4 TLB_POLICY_LRU = some t ∧
      (t.size : Int) = 4 ∧
      (∀ e ∈ t.entries, e.valid = false) ∧
      t.hits = 0 ∧ t.misses = 0 ∧ t.access_counter = 0 :=
  (c7_tlb_init_validation 4 TLB_POLICY_LRU).2 (by norm_num) (by norm_num)

/-- C8: `paging_init` accepts every frame count and policy; the frame count
is clamped silently, so the resulting engine always has between 1 and 64
frames: a request above 64 yields 64, a request below 1 yields the in-range
default 4, and anything in [1, 64] is kept as given. -/
theorem c8_paging_init_clamp (num_frames : Int) (policy : Nat) :
    1 ≤ (paging_init num_frames policy).num_frames ∧
    (paging_init num_frames policy).num_frames ≤ 64 ∧
    ((paging_init num_frames policy).num_frames : Int) =
      (if num_frames < 1 then 4
       else if num_frames > 64 then 64 else num_frames) := by
  simp only [paging_init, PagingSimulator.num_frames, List.length_replicate,
    MAX_PAGING_FRAMES]
  split_ifs <;> omega

/-- C1: evaluation of the TLB code at the failing input of the FIFO claim.
With capacity 2 and policy FIFO, after inserting A = 100 and B = 200 and a
lookup hit on A, `tlb_lookup` has refreshed the recency stamp of A even
under FIFO, so `find_victim` selects the slot of B (slot 1, holding
vpn 200), and inserting C = 300 evicts B while A stays cached — the
opposite of the specified FIFO behavior of evicting A. -/
theorem c1_fifo_eviction_code_eval :
    (tlb_init 2 TLB_POLICY_FIFO).map (fun t0 =>
      let s3 := (tlb_lookup
        (tlb_insert (tlb_insert t0 100 11 false 0) 200 22 false 0) 100).2.2
      (s3.entries[find_victim s3 0]?.map TLBEntry.vpn,
        (tlb_insert s3 300 33 false 0).entries.map fun e => (e.vpn, e.valid)))
    = some (some 200, [(100, true), (300, true)]) := by decide

/-- C9, counterexample: the claimed [0, 100] bound fails at a
representable state.  With hits = 2 ^ 64 - 1 and misses = 2 the `uint64_t`
sum `hits + misses` wraps to 1, so the guard does not fire and the
function divides the huge hit count by the wrapped total of 1, far
exceeding 100. -/
theorem c9_hit_rate_range_counterexample :
    100 < tlb_get_hit_rate ⟨[], TLB_POLICY_LRU, 2 ^ 64 - 1, 2, 0⟩ := by
  norm_num [tlb_get_hit_rate, UINT64_MOD]

/-- C9, amended: the zero-guard holds in every state (it tests the wrapped
`uint64_t` total, which is also the divisor, so no division by zero is
ever attempted); and in every state whose true total hits + misses is
below `2 ^ 64` — so the C sum does not wrap — the value lies in [0, 100]
and equals hits / (hits + misses) * 100 when the total is nonzero. -/
theorem c9_hit_rate_guarded (t : TLB) :
    (t.hits + t.misses = 0 → tlb_get_hit_rate t = 0) ∧
    ((t.hits + t.misses) % 2 ^ 64 = 0 → tlb_get_hit_rate t = 0) ∧
    (t.hits + t.misses < 2 ^ 64 →
      0 ≤ tlb_get_hit_rate t ∧ tlb_get_hit_rate t ≤ 100 ∧
      (t.hits + t.misses ≠ 0 →
        tlb_get_hit_rate t =
          ((t.hits : ℚ) / ((t.hits : ℚ) + (t.misses : ℚ))) * 100)) := by
  have hz : (t.hits + t.misses) % UINT64_MOD = 0 → tlb_get_hit_rate t = 0 := by
    intro h
    simp [tlb_get_hit_rate, h]
  refine ⟨fun h => hz (by rw [h]; rfl), fun h => hz h, ?_⟩
  intro hlt
  have hmod : (t.hits + t.misses) % UINT64_MOD = t.hits + t.misses :=
    Nat.mod_eq_of_lt (by simpa [UINT64_MOD] using hlt)
  by_cases h : t.hits + t.misses = 0
  · rw [hz (by rw [h]; rfl)]
    exact ⟨le_refl 0, by norm_num, fun hne => absurd h hne⟩
  · have hpos : (0 : ℚ) < (t.hits : ℚ) + (t.misses : ℚ) := by
      have : 0 < t.hits + t.misses := Nat.pos_of_ne_zero h
      exact_mod_cast this
    have hrate : tlb_get_hit_rate t =
        ((t.hits : ℚ) / ((t.hits : ℚ) + (t.misses : ℚ))) * 100 := by
      simp only [tlb_get_hit_rate, hmod, if_neg h]
      push_cast
      ring
    have hq0 : (0 : ℚ) ≤ (t.hits : ℚ) / ((t.hits : ℚ) + (t.misses : ℚ)) :=
      div_nonneg (by positivity) (le_of_lt hpos)
    have hq1 : (t.hits : ℚ) / ((t.hits : ℚ) + (t.misses : ℚ)) ≤ 1 :=
      (div_le_one hpos).mpr (le_add_of_nonneg_right (by positivity))
    rw [hrate]
    exact ⟨by nlinarith, by nlinarith, fun _ => rfl⟩

/-- C3: `walk_page_table` marks the result successful exactly when the
pagemap read succeeded and the entry is present; on success the C return
value is 0 and the physical address is `(pfn << 12) | offset` with the
decomposed 12-bit offset; on failure the success flag is cleared and the
reason distinguishes, in priority order, a failed read, then a swapped
page (carrying the swap offset), then a non-present page; and only the
first element of a stream of fetch outcomes is ever consumed (one fetch,
no retry). -/
theorem c3_walk_taxonomy (readResult : Option PageTableEntry) (pid : Int)
    (vaddr : Nat) :
    let w := walk_page_table readResult pid vaddr
    (w.2.success = true ↔ ∃ pte, readResult = some pte ∧ pte.present = true) ∧
    (w.2.success = true →
      w.1 = 0 ∧
      w.2.physical_addr = construct_physical_address w.2.pte.pfn w.2.page_offset ∧
      w.2.physical_addr =
        ((w.2.pte.pfn <<< 12) % 2 ^ 64) ||| (vaddr &&& 0xFFF)) ∧
    (readResult = none →
      w.1 = -1 ∧ w.2.success = false ∧
      w.2.error_msg = WalkError.readFailure pid) ∧
    (∀ pte, readResult = some pte → pte.present = false → pte.swapped = true →
      w.1 = -1 ∧ w.2.success = false ∧
      w.2.error_msg = WalkError.swappedOut pte.swap_offset) ∧
    (∀ pte, readResult = some pte → pte.present = false → pte.swapped = false →
      w.1 = -1 ∧ w.2.success = false ∧
      w.2.error_msg = WalkError.notPresent) ∧
    (∀ f g : Nat → Option PageTableEntry, f 0 = g 0 →
      walk_page_table_stream f pid vaddr = walk_page_table_stream g pid vaddr) := by
  have hmask : ∀ x : Nat, (x &&& 0xFFF) &&& 0xFFF = x &&& 0xFFF := by
    intro x
    rw [Nat.and_assoc, Nat.and_self]
  cases readResult with
  | none =>
    refine ⟨by simp [walk_page_table], by simp [walk_page_table], ?_, ?_, ?_, ?_⟩
    · intro _
      refine ⟨rfl, rfl, rfl⟩
    · intro pte hpte
      exact absurd hpte (by simp)
    · intro pte hpte
      exact absurd hpte (by simp)
    · intro f g hfg
      simp [walk_page_table_stream, hfg]
  | some pte =>
    by_cases hp : pte.present
    · refine ⟨by simp [walk_page_table, hp], ?_, by simp, ?_, ?_, ?_⟩
      · intro _
        refine ⟨by simp [walk_page_table, hp], by simp [walk_page_table, hp], ?_⟩
        simp [walk_page_table, hp, construct_physical_address, extract_page_indices,
          PAGE_SHIFT, PAGE_OFFSET_MASK, UINT64_MOD, hmask]
      · intro pte1 hpte1 hp1 _
        rw [Option.some.injEq] at hpte1
        subst hpte1
        rw [hp] at hp1
        cases hp1
      · intro pte1 hpte1 hp1 _
        rw [Option.some.injEq] at hpte1
        subst hpte1
        rw [hp] at hp1
        cases hp1
      · intro f g hfg
        simp [walk_page_table_stream, hfg]
    · rw [Bool.not_eq_true] at hp
      by_cases hs : pte.swapped
      · refine ⟨by simp [walk_page_table, hp, hs], by simp [walk_page_table, hp, hs], by simp, ?_, ?_, ?_⟩
        · intro pte1 hpte1 _ _
          rw [Option.some.injEq] at hpte1
          subst hpte1
          refine ⟨by simp [walk_page_table, hp, hs], by simp [walk_page_table, hp, hs],
            by simp [walk_page_table, hp, hs]⟩
        · intro pte1 hpte1 _ hs1
          rw [Option.some.injEq] at hpte1
          subst hpte1
          rw [hs] at hs1
          cases hs1
        · intro f g hfg
          simp [walk_page_table_stream, hfg]
      · rw [Bool.not_eq_true] at hs
        refine ⟨by simp [walk_page_table, hp, hs], by simp [walk_page_table, hp, hs], by simp, ?_, ?_, ?_⟩
        · intro pte1 hpte1 _ hs1
          rw [Option.some.injEq] at hpte1
          subst hpte1
          rw [hs] at hs1
          cases hs1
        · intro pte1 hpte1 _ _
          rw [Option.some.injEq] at hpte1
          subst hpte1
          refine ⟨by simp [walk_page_table, hp, hs], by simp [walk_page_table, hp, hs],
            by simp [walk_page_table, hp, hs]⟩
        · intro f g hfg
          simp [walk_page_table_stream, hfg]

/-- Witness for C3: a present entry (pfn 5) at vaddr 4660 = 0x1234, a
failed read, a swapped entry and a non-present entry, plus two fetch
streams agreeing at index 0. -/
theorem c3_walk_taxonomy_witness :
    ((walk_page_table (some ⟨0, 5, true, false, false, false, false, false, false, 0⟩) 7 4660).1 = 0 ∧
      (walk_page_table (some ⟨0, 5, true, false, false, false, false, false, false, 0⟩) 7 4660).2.physical_addr =
        construct_physical_address 5 564 ∧
      (walk_page_table (some ⟨0, 5, true, false, false, false, false, false, false, 0⟩) 7 4660).2.physical_addr =
        ((5 <<< 12) % 2 ^ 64) ||| (4660 &&& 0xFFF)) ∧
    ((walk_page_table none 7 4660).1 = -1 ∧
      (walk_page_table none 7 4660).2.success = false ∧
      (walk_page_table none 7 4660).2.error_msg = WalkError.readFailure 7) ∧
    ((walk_page_table (some ⟨0, 0, false, false, false, false, false, false, true, 9⟩) 7 4660).2.error_msg =
      WalkError.swappedOut 9) ∧
    ((walk_page_table (some ⟨0, 0, false, false, false, false, false, false, false, 0⟩) 7 4660).2.error_msg =
      WalkError.notPresent) ∧
    walk_page_table_stream (fun _ => none) 7 4660 =
      walk_page_table_stream (fun n => if n = 0 then none else some zeroPTE) 7 4660 := by
  have hP := c3_walk_taxonomy
    (some ⟨0, 5, true, false, false, false, false, false, false, 0⟩) 7 4660
  have hN := c3_walk_taxonomy none 7 4660
  have hS := c3_walk_taxonomy
    (some ⟨0, 0, false, false, false, false, false, false, true, 9⟩) 7 4660
  have hM := c3_walk_taxonomy
    (some ⟨0, 0, false, false, false, false, false, false, false, 0⟩) 7 4660
  refine ⟨?_, hN.2.2.1 rfl, (hS.2.2.2.1 _ rfl rfl rfl).2.2,
    (hM.2.2.2.2.1 _ rfl rfl rfl).2.2, hN.2.2.2.2.2 _ _ rfl⟩
  have h1 := hP.2.1 (by decide)
  exact ⟨h1.1, by rw [h1.2.1]; decide, h1.2.2⟩

/-- C6: a page hit in `paging_access` never changes any loaded-at stamp
(it touches only the last-access stamp and the reference bit of the hit
frame), and FIFO victim selection reads the loaded-at stamp: with 2 frames
under FIFO, accessing pages 1, 2, 1 (hit), 3 evicts page 1 (the first
loaded, installed in frame 0) and keeps page 2, even though the hit made
page 1 the most recently touched. -/
theorem c6_fifo_loaded_at :
    (∀ (sim sim1 : PagingSimulator) (vpn : Int) (randVal : Nat),
        paging_access sim vpn randVal = some (true, sim1) →
        sim1.frames.map PageFrame.loaded_at = sim.frames.map PageFrame.loaded_at) ∧
    ((paging_access (paging_init 2 PAGING_POLICY_FIFO) 1 0).bind fun a =>
      (paging_access a.2 2 0).bind fun b =>
      (paging_access b.2 1 0).bind fun c =>
      (paging_access c.2 3 0).map fun d =>
      (c.1, c.2.frames.map PageFrame.loaded_at, d.2.frames.map fun f => f.vpn))
      = some (true, [0, 1], [3, 2]) := by
  constructor
  · intro sim sim1 vpn randVal h
    cases hidx : sim.frames.findIdx? (fun f => f.vpn == vpn) with
    | none =>
      exfalso
      simp only [paging_access, hidx] at h
      repeat' split at h
      all_goals simp_all
    | some i =>
      simp only [paging_access, hidx] at h
      cases hfi : sim.frames[i]? with
      | none =>
        rw [hfi] at h
        cases h
      | some f =>
        rw [hfi] at h
        simp only [Option.some.injEq, Prod.mk.injEq, true_and] at h
        subst h
        simp only [List.map_set]
        exact set_of_getElem? (by simp [hfi])
  · decide

/-- Witness for C6: the hit on page 1 in the state reached after loading
pages 1 and 2 leaves both loaded-at stamps unchanged. -/
theorem c6_fifo_loaded_at_witness :
    (⟨[⟨1, 0, 2, true⟩, ⟨2, 1, 1, true⟩], PAGING_POLICY_FIFO, 2, 1, 3, 0⟩ :
        PagingSimulator).frames.map PageFrame.loaded_at =
    (⟨[⟨1, 0, 0, true⟩, ⟨2, 1, 1, true⟩], PAGING_POLICY_FIFO, 2, 0, 2, 0⟩ :
        PagingSimulator).frames.map PageFrame.loaded_at :=
  c6_fifo_loaded_at.1 _ _ 1 0 (by decide)

/-- C4: clock termination: in a validly initialized frame table under the
CLOCK policy (hand in range), an access that needs an eviction (every
frame occupied, requested page absent) finds its victim within fuel for
two full sweeps of the frames — the embedded scan, cut off at
`2 * num_frames` inspections, succeeds and returns a frame index in
`[0, num_frames)` — and `paging_access` itself completes with a fault
result. -/
theorem c4_clock_termination (sim : PagingSimulator) (vpn : Int) (randVal : Nat)
    (hn : 0 < sim.num_frames) (hh : sim.clock_hand < sim.num_frames)
    (hpol : sim.policy = PAGING_POLICY_CLOCK)
    (hfull : ∀ f ∈ sim.frames, f.vpn ≠ -1)
    (habs : ∀ f ∈ sim.frames, f.vpn ≠ vpn) :
    (∃ t fr h1, clockScan (2 * sim.num_frames) sim.frames sim.clock_hand =
        some (t, fr, h1) ∧ t < sim.num_frames ∧ fr.length = sim.num_frames) ∧
    (∃ sim1, paging_access sim vpn randVal = some (false, sim1)) := by
  simp only [PagingSimulator.num_frames] at hn hh ⊢
  have hscan : ∃ t fr h1,
      clockScan (2 * sim.frames.length) sim.frames sim.clock_hand =
        some (t, fr, h1) ∧ t < sim.frames.length ∧
        fr.length = sim.frames.length := by
    by_cases hex : ∃ d, d < sim.frames.length ∧ ∀ f,
        sim.frames[(sim.clock_hand + d) % sim.frames.length]? = some f →
        f.reference_bit = false
    · obtain ⟨d, hd, hclear⟩ := hex
      exact clockScan_of_clear d (2 * sim.frames.length) sim.frames
        sim.clock_hand hh hd (by omega) hclear
    · push_neg at hex
      obtain ⟨f0, hf0, hbit⟩ := hex 0 (by omega)
      rw [Nat.add_zero, Nat.mod_eq_of_lt hh] at hf0
      simp only [ne_eq, Bool.not_eq_false] at hbit
      have hstep : clockScan (2 * sim.frames.length) sim.frames sim.clock_hand =
          clockScan (2 * sim.frames.length - 1)
            (sim.frames.set sim.clock_hand { f0 with reference_bit := false })
            ((sim.clock_hand + 1) % sim.frames.length) := by
        have h2 : 2 * sim.frames.length = (2 * sim.frames.length - 1) + 1 := by
          omega
        rw [h2]
        simp only [clockScan]
        rw [hf0]
        simp [hbit]
      have hlen1 : (sim.frames.set sim.clock_hand
          { f0 with reference_bit := false }).length = sim.frames.length :=
        List.length_set ..
      obtain ⟨t, fr, h1, heq, ht, hfr⟩ :=
        clockScan_of_clear (sim.frames.length - 1) (2 * sim.frames.length - 1)
          (sim.frames.set sim.clock_hand { f0 with reference_bit := false })
          ((sim.clock_hand + 1) % sim.frames.length)
          (by rw [hlen1]; exact Nat.mod_lt _ (by omega))
          (by omega)
          (by omega)
          (by
            intro f hf
            have hidx : ((sim.clock_hand + 1) % sim.frames.length +
                (sim.frames.length - 1)) %
                  (sim.frames.set sim.clock_hand
                    { f0 with reference_bit := false }).length =
                sim.clock_hand := by
              rw [hlen1, Nat.mod_add_mod]
              have : sim.clock_hand + 1 + (sim.frames.length - 1) =
                  sim.clock_hand + sim.frames.length := by omega
              rw [this, Nat.add_mod_right, Nat.mod_eq_of_lt hh]
            rw [hidx, List.getElem?_set_self (by omega)] at hf
            injection hf with hf
            rw [← hf])
      refine ⟨t, fr, h1, ?_, by omega, by omega⟩
      rw [hstep]
      exact heq
  refine ⟨hscan, ?_⟩
  obtain ⟨t, fr, h1, heq, ht, hfr⟩ := hscan
  have hidx1 : sim.frames.findIdx? (fun f => f.vpn == vpn) = none := by
    rw [List.findIdx?_eq_none_iff]
    intro x hx
    simp [habs x hx]
  have hidx2 : sim.frames.findIdx? (fun f => f.vpn == -1) = none := by
    rw [List.findIdx?_eq_none_iff]
    intro x hx
    simp [hfull x hx]
  obtain ⟨g, hg⟩ : ∃ g, fr[t]? = some g :=
    ⟨fr.get ⟨t, by omega⟩, List.getElem?_eq_getElem (by omega)⟩
  simp only [paging_access, hidx1, hidx2, hpol, PAGING_POLICY_LRU,
    PAGING_POLICY_FIFO, PAGING_POLICY_RANDOM, PAGING_POLICY_CLOCK,
    TLB_POLICY_LRU, TLB_POLICY_FIFO, TLB_POLICY_RANDOM, TLB_POLICY_CLOCK,
    PagingSimulator.num_frames]
  rw [heq]
  simp only [hg]
  exact ⟨_, rfl⟩

/-- Witness for C4: two occupied frames, both reference bits set, hand at
0, accessing absent page 3. -/
theorem c4_clock_termination_witness :
    let simc : PagingSimulator :=
      ⟨[⟨1, 0, 0, true⟩, ⟨2, 1, 1, true⟩], PAGING_POLICY_CLOCK, 2, 0, 2, 0⟩
    (∃ t fr h1, clockScan (2 * simc.num_frames) simc.frames simc.clock_hand =
        some (t, fr, h1) ∧ t < simc.num_frames ∧ fr.length = simc.num_frames) ∧
    (∃ sim1, paging_access simc 3 0 = some (false, sim1)) :=
  c4_clock_termination _ 3 0 (by decide) (by decide) rfl (by decide) (by decide)

/-- C5: LRU eviction for the TLB engine: with capacity 2 under LRU, after
inserting distinct keys A and B, a lookup hit on A refreshes the recency
stamp of A, so `find_victim` selects the slot of B and inserting a fresh
key C evicts B while A stays cached. -/
theorem c5_lru_eviction (A B C pa pb pc : Nat) (da db dc : Bool) (t0 : TLB)
    (hAB : A ≠ B) (hAC : A ≠ C) (hBC : B ≠ C)
    (h0 : tlb_init 2 TLB_POLICY_LRU = some t0) :
    let s3 := (tlb_lookup (tlb_insert (tlb_insert t0 A pa da 0) B pb db 0) A).2.2
    (tlb_lookup (tlb_insert (tlb_insert t0 A pa da 0) B pb db 0) A).1 = true ∧
    s3.entries[find_victim s3 0]?.map TLBEntry.vpn = some B ∧
    (tlb_insert s3 C pc dc 0).entries.map (fun e => (e.vpn, e.valid)) =
      [(A, true), (C, true)] := by
  rw [tlb_init, if_neg (by norm_num)] at h0
  injection h0 with h0
  subst h0
  simp [tlb_insert, tlb_lookup, insertAux, lookupAux, find_victim, minStampIdx,
    minStampAux, zeroTLBEntry, TLB_POLICY_LRU, UINT64_MOD, hAB, hAC, hBC,
    List.replicate]

/-- Witness for C5 at A = 100, B = 200, C = 300. -/
theorem c5_lru_eviction_witness :
    let t0 : TLB := ⟨[zeroTLBEntry, zeroTLBEntry], TLB_POLICY_LRU, 0, 0, 0⟩
    let s3 := (tlb_lookup (tlb_insert (tlb_insert t0 100 11 false 0) 200 22 false 0) 100).2.2
    (tlb_lookup (tlb_insert (tlb_insert t0 100 11 false 0) 200 22 false 0) 100).1 = true ∧
    s3.entries[find_victim s3 0]?.map TLBEntry.vpn = some 200 ∧
    (tlb_insert s3 300 33 false 0).entries.map (fun e => (e.vpn, e.valid)) =
      [(100, true), (300, true)] := by
  exact c5_lru_eviction 100 200 300 11 22 33 false false false _
    (by norm_num) (by norm_num) (by norm_num) (by decide)

/-- C10: in every TLB state reachable from a successful `tlb_init` by any
sequence of `tlb_lookup`, `tlb_insert`, `tlb_access`, `tlb_invalidate`,
`tlb_flush` and `tlb_reset_stats`, no two distinct valid slots hold the
same virtual page number: `tlb_insert` updates the existing valid slot in
place when the key is already cached, so a key never occupies two slots. -/
theorem c10_vpn_unique (t : TLB) (h : ReachableTLB t) : EntriesOK t.entries := by
  induction h with
  | init size policy t ht => exact tlb_init_entriesOK ht
  | lookup t vpn _ ih => exact tlb_lookup_entriesOK t vpn ih
  | insert t vpn pfn dirty randVal _ ih =>
    exact tlb_insert_entriesOK t vpn pfn dirty randVal ih
  | access t vpn pfn dirty randVal _ ih =>
    have h1 : EntriesOK (tlb_lookup t vpn).2.2.entries :=
      tlb_lookup_entriesOK t vpn ih
    rcases hl : tlb_lookup t vpn with ⟨hit, p, t1⟩
    rw [hl] at h1
    cases hit
    · simp only [tlb_access, hl]
      exact tlb_insert_entriesOK t1 vpn pfn dirty randVal h1
    · simp only [tlb_access, hl]
      exact h1
  | invalidate t vpn _ ih =>
    cases h : invalidateAux vpn t.entries with
    | none => simp only [tlb_invalidate, h]; exact ih
    | some es1 =>
      simp only [tlb_invalidate, h]
      exact EntriesOK_of_forall₂ (invalidateAux_forall₂ h) ih
  | flush t _ _ =>
    intro i hi j hj hne hv1 _
    exfalso
    simp only [tlb_flush, List.get_eq_getElem, List.getElem_map] at hv1
    cases hv1
  | reset t _ ih =>
    exact ih

/-- Witness for C10: the state obtained from a capacity-2 `tlb_init`
followed by one `tlb_insert` is reachable, and its valid slots hold
distinct keys. -/
theorem c10_vpn_unique_witness :
    EntriesOK (tlb_insert
      ⟨[zeroTLBEntry, zeroTLBEntry], TLB_POLICY_LRU, 0, 0, 0⟩ 5 7 false 0).entries :=
  c10_vpn_unique _
    (ReachableTLB.insert _ 5 7 false 0
      (ReachableTLB.init 2 TLB_POLICY_LRU _ (by decide)))

/-- Witness for C9: the zero-total case and a 3-hit 1-miss case. -/
theorem c9_hit_rate_guarded_witness :
    tlb_get_hit_rate ⟨[], TLB_POLICY_LRU, 0, 0, 0⟩ = 0 ∧
    tlb_get_hit_rate ⟨[], TLB_POLICY_LRU, 3, 1, 0⟩ =
      ((3 : ℚ) / ((3 : ℚ) + (1 : ℚ))) * 100 :=
  ⟨(c9_hit_rate_guarded ⟨[], TLB_POLICY_LRU, 0, 0, 0⟩).1 rfl,
    ((c9_hit_rate_guarded ⟨[], TLB_POLICY_LRU, 3, 1, 0⟩).2.2 (by norm_num)).2.2
      (by norm_num)⟩

end VMem
